import Mathlib

/-!
Verification of the LSF glue layer (app/lsf.py, webapp/LSF.py) and the
transaction helper (python/dbutil.py).

The job-status parsing in `getJobInfosSub` applies the Python regular
expression

  ^(\S+)\s+(\S+)\s+(\S+)\s+(\S+)\s+(\S+)\s+(\S+)\s+(.*?)\s+(\S+\s+\S+\s+\S+)\s+$

via `re.search` to each line of the external command output (lines obtained
by `splitlines(True)`, keeping line endings).  We embed the fragment of
Python regex semantics this pattern uses: character classes `\S`, `\s`, `.`
(which does not match a newline), greedy and lazy repetition of a character
class, capture groups, and the `$` anchor (which matches at the end of the
string or just before a final newline).  Since the pattern is anchored with
`^` and the `MULTILINE` flag is not set, `re.search` can only match at
position 0, so we run the matcher at the start of the line.  The matcher
returns the list of all ways to match, in backtracking priority order
(greedy repetition tries longer matches first, lazy repetition shorter
first); Python returns the first element of that list.
-/

/-- Python `\s` on a byte string: space, tab, newline, carriage return,
vertical tab, form feed. -/
def isWS (c : Char) : Bool :=
  c = ' ' || c = '\t' || c = '\n' || c = '\r' || c = '\x0b' || c = '\x0c'

/-- Python `\S`. -/
def nonWS (c : Char) : Bool := !isWS c

/-- Python `.` without `DOTALL`: any character except newline. -/
def dotCls (c : Char) : Bool := c ≠ '\n'

/-- Python `\d`. -/
def isDigitChar (c : Char) : Bool := '0' ≤ c && c ≤ '9'

/-- Regex fragment used by the bjobs pattern: character classes, sequencing,
repetition of a character class (greedy or lazy), capture groups, and the
dollar anchor. -/
inductive RE where
  | cls (p : Char → Bool)
  | seq (a b : RE)
  | starCls (p : Char → Bool) (lzy : Bool)
  | group (i : Nat) (a : RE)
  | eol

/-- Capture environment: group index paired with the captured characters. -/
abbrev Caps := List (Nat × List Char)

/-- Remainders after repeating a character class zero or more times, in
backtracking priority order: greedy repetition lists longer consumptions
first, lazy repetition lists shorter consumptions first. -/
def starSuffixes (p : Char → Bool) (lzy : Bool) : List Char → List (List Char)
  | [] => [[]]
  | c :: rest =>
      if p c then
        if lzy then (c :: rest) :: starSuffixes p lzy rest
        else starSuffixes p lzy rest ++ [c :: rest]
      else [c :: rest]

/-- All matches of a regex against a string (as a character list), in
backtracking priority order.  Each result is the remaining suffix paired
with the captures recorded so far (innermost/latest first). -/
def reRun : RE → List Char → List (List Char × Caps)
  | .cls _, [] => []
  | .cls p, c :: rest => if p c then [(rest, [])] else []
  | .seq a b, s =>
      (reRun a s).flatMap fun pr =>
        (reRun b pr.1).map fun pr2 => (pr2.1, pr2.2 ++ pr.2)
  | .starCls p lzy, s => (starSuffixes p lzy s).map fun r => (r, [])
  | .group i a, s =>
      (reRun a s).map fun pr =>
        (pr.1, (i, s.take (s.length - pr.1.length)) :: pr.2)
  | .eol, s => if s = [] || s = ['\n'] then [(s, [])] else []

/-- `C+` for a character class `C`: one occurrence followed by a greedy star. -/
def plusCls (p : Char → Bool) : RE := .seq (.cls p) (.starCls p false)

/-- `\s+`. -/
def wsPlus : RE := plusCls isWS

/-- `(\S+)` as capture group `i`. -/
def tokGroup (i : Nat) : RE := .group i (plusCls nonWS)

/-- `(\S+\s+\S+\s+\S+)` as capture group 8 (the submit time). -/
def submitGroup : RE :=
  .group 8 (.seq (plusCls nonWS) (.seq wsPlus
    (.seq (plusCls nonWS) (.seq wsPlus (plusCls nonWS)))))

/-- The bjobs pattern
`^(\S+)\s+(\S+)\s+(\S+)\s+(\S+)\s+(\S+)\s+(\S+)\s+(.*?)\s+(\S+\s+\S+\s+\S+)\s+$`
(without the leading `^`, which is expressed by running the matcher only at
position 0). -/
def bjobsRE : RE :=
  .seq (tokGroup 1) (.seq wsPlus
  (.seq (tokGroup 2) (.seq wsPlus
  (.seq (tokGroup 3) (.seq wsPlus
  (.seq (tokGroup 4) (.seq wsPlus
  (.seq (tokGroup 5) (.seq wsPlus
  (.seq (tokGroup 6) (.seq wsPlus
  (.seq (.group 7 (.starCls dotCls true)) (.seq wsPlus
  (.seq submitGroup (.seq wsPlus .eol)))))))))))))))

/-- `re.search(bjobsRegex, line)`: the captures of the first match in
backtracking order, if any.  The pattern is anchored at both ends, so the
search can only succeed at position 0. -/
def matchLine (s : List Char) : Option Caps :=
  ((reRun bjobsRE s).head?).map Prod.snd

/-- `m.group(i)`: the characters captured by group `i`. -/
def capOf (caps : Caps) (i : Nat) : List Char :=
  ((caps.find? fun e => e.1 == i).map Prod.snd).getD []

example :
    (matchLine "461830  td23    RUN   cbi_unlimited host1 host2 foo bar        Mar  3 10:36\n".data).map
      (fun caps => (String.mk (capOf caps 1), String.mk (capOf caps 3), String.mk (capOf caps 7)))
    = some ("461830", "RUN", "foo bar") := by decide

example : matchLine "461830  td23    RUN   cbi_unlimited host1 host2 foo bar        Mar  3 10:36".data
    = none := by decide

/-!
## Constants and job-info records (app/lsf.py and webapp/LSF.py)

A Python job-info dict is embedded as an association list of string keys and
string values, so that "which keys the record has" is observable.
-/

def STATUS : String := "status"

def JOBID : String := "jobid"

def JOB_NAME : String := "job_name"

def EXIT_STATUS : String := "EXIT"

def DONE_STATUS : String := "DONE"

def ZOMBIE_STATUS : String := "ZOMBI"

def OFF_STATUSES : List String := [DONE_STATUS, EXIT_STATUS, ZOMBIE_STATUS]

/-- A Python dict with string keys and values, as an association list
(earliest binding wins on lookup; the dicts built here never repeat keys). -/
abbrev Dict := List (String × String)

/-- `d[k]` as a partial lookup. -/
def dictGet (d : Dict) (k : String) : Option String :=
  (d.find? fun e => e.1 == k).map Prod.snd

/-- Python exceptions raised by the embedded code paths. -/
inductive PyErr where
  | oserror
  | calledProcessError (code : Nat)
  | keyError (k : String)
  | exception (msg : String)
  deriving DecidableEq

/-!
## Output parsing: getJobInfosSub

`getJobInfosSub` runs `subprocess.check_output(args)` (which raises
`OSError` if the command cannot be invoked and `CalledProcessError` if it
exits non-zero), splits the output with `splitlines(True)`, matches each
line against the bjobs regex and, for each matching line, builds the dict
`{JOBID: m.group(1), STATUS: m.group(3), JOB_NAME: m.group(7)}`.  The
external invocation is embedded as its result: either a raised exception or
the captured standard output.
-/

/-- Python 2 `str.splitlines(True)`: split on `\n`, `\r\n` and `\r`,
keeping the line terminators. -/
def splitlinesKeep : List Char → List (List Char)
  | [] => []
  | '\n' :: rest => ['\n'] :: splitlinesKeep rest
  | '\r' :: '\n' :: rest => ['\r', '\n'] :: splitlinesKeep rest
  | '\r' :: rest => ['\r'] :: splitlinesKeep rest
  | c :: rest =>
      match splitlinesKeep rest with
      | [] => [[c]]
      | l :: ls => (c :: l) :: ls

/-- One line of bjobs output: the record built from a matching line, or
nothing for a non-matching line (header, error message).  Groups 1, 3 and 7
are kept; the other captures are discarded. -/
def lineInfo (line : List Char) : Option Dict :=
  (matchLine line).map fun caps =>
    [(JOBID, String.mk (capOf caps 1)),
     (STATUS, String.mk (capOf caps 3)),
     (JOB_NAME, String.mk (capOf caps 7))]

/-- The records parsed from a full bjobs output. -/
def parseBjobsOutput (output : String) : List Dict :=
  (splitlinesKeep output.data).filterMap lineInfo

/-- `getJobInfosSub`, as a function of the `check_output` result: an
exception from the external command propagates; otherwise the output is
parsed line by line. -/
def getJobInfosSub (cmdResult : Except PyErr String) : Except PyErr (List Dict) :=
  cmdResult.map parseBjobsOutput

/-!
## Query construction and the retry-once pattern

`getJobInfos` and `getJobNameInfos` build the bjobs argument vector, invoke
`getJobInfosSub`, and optionally sleep and re-invoke once when the first
result is empty.  The external world is embedded as an oracle giving the
result of the k-th invocation, and each run also produces the list of
observable events (external queries and sleeps) in order.
-/

/-- Observable effects of a query run. -/
inductive Event where
  | query (args : List String)
  | sleep (delay : ℚ)
  deriving DecidableEq

/-- `['bjobs', '-a', '-u', 'all', '-w', '-J', jobName]`. -/
def getJobNameArgs (jobName : String) : List String :=
  ["bjobs", "-a", "-u", "all", "-w", "-J", jobName]

/-- Argument vector of `getJobInfos`: `jobIds == None` is replaced by the
list `['0']`; then `['bjobs', '-a', '-u', 'all', '-w'] + jobIds`. -/
def getJobInfosArgs (jobIds : Option (List String)) : List String :=
  let ids := match jobIds with
    | none => ["0"]
    | some l => l
  ["bjobs", "-a", "-u", "all", "-w"] ++ ids

/-- Shared retry-once shape of `getJobNameInfos` / `getJobInfos` (app/lsf.py)
and `getJobNameStatuses` (webapp/LSF.py): query once; if the result is the
empty list and `retry` is set, sleep `delay` and query once more.  An
exception from `check_output` propagates immediately. -/
def queryWithRetry (oracle : Nat → Except PyErr String) (args : List String)
    (retry : Bool) (delay : ℚ) : Except PyErr (List Dict) × List Event :=
  match getJobInfosSub (oracle 0) with
  | .error e => (.error e, [.query args])
  | .ok infos =>
      if infos.isEmpty && retry then
        (getJobInfosSub (oracle 1), [.query args, .sleep delay, .query args])
      else (.ok infos, [.query args])

/-- `getJobNameInfos(jobName, retry, delay)` from app/lsf.py. -/
def getJobNameInfos (oracle : Nat → Except PyErr String) (jobName : String)
    (retry : Bool) (delay : ℚ) : Except PyErr (List Dict) × List Event :=
  queryWithRetry oracle (getJobNameArgs jobName) retry delay

/-- `getJobInfos(jobIds, retry, delay)` from app/lsf.py. -/
def getJobInfos (oracle : Nat → Except PyErr String) (jobIds : Option (List String))
    (retry : Bool) (delay : ℚ) : Except PyErr (List Dict) × List Event :=
  queryWithRetry oracle (getJobInfosArgs jobIds) retry delay


/-!
## On/off predicates

app/lsf.py `infosAreOff` filters the records whose status is not in
`OFF_STATUSES` and returns whether that list is empty; `info[STATUS]`
raises `KeyError` when the key is absent, so the predicates live in
`Except`.
-/

/-- `info[STATUS]`. -/
def statusOf (info : Dict) : Except PyErr String :=
  match dictGet info STATUS with
  | some s => .ok s
  | none => .error (.keyError STATUS)

/-- The list comprehension
`[info for info in infos if info[STATUS] not in OFF_STATUSES]`. -/
def onInfos : List Dict → Except PyErr (List Dict)
  | [] => .ok []
  | info :: rest => do
      let s ← statusOf info
      let r ← onInfos rest
      if OFF_STATUSES.contains s then pure r else pure (info :: r)

/-- `infosAreOff(infos)` from app/lsf.py: `not ons`. -/
def infosAreOff (infos : List Dict) : Except PyErr Bool :=
  (onInfos infos).map List.isEmpty

/-- `infosAreOn(infos)` from app/lsf.py: `not infosAreOff(infos)`. -/
def infosAreOn (infos : List Dict) : Except PyErr Bool :=
  (infosAreOff infos).map (fun b => !b)

/-- The list comprehension `[info[STATUS] for info in infos]` used by
`getJobNameStatuses` (webapp/LSF.py). -/
def statusesOf : List Dict → Except PyErr (List String)
  | [] => .ok []
  | info :: rest => do
      let s ← statusOf info
      let r ← statusesOf rest
      pure (s :: r)

/-- `getJobNameStatuses(jobName, retry, delay)` from webapp/LSF.py: the same
query-retry shape as `getJobNameInfos`, followed by extraction of the status
of each record. -/
def getJobNameStatuses (oracle : Nat → Except PyErr String) (jobName : String)
    (retry : Bool) (delay : ℚ) : Except PyErr (List String) × List Event :=
  let r := queryWithRetry oracle (getJobNameArgs jobName) retry delay
  (r.1.bind statusesOf, r.2)

/-- app/lsf.py `isJobNameOff`, as a function of the records returned by the
name query: `infosAreOff(infos)`. -/
def appIsJobNameOff (infos : List Dict) : Except PyErr Bool :=
  infosAreOff infos

/-- webapp/LSF.py `isJobNameOff`, as a function of the records returned by
the name query: extract the statuses, keep the non-off ones, raise when
more than one remains, otherwise return `not onStatuses`. -/
def webappIsJobNameOff (jobName : String) (infos : List Dict) : Except PyErr Bool := do
  let statuses ← statusesOf infos
  let onStatuses := statuses.filter fun s => !OFF_STATUSES.contains s
  if onStatuses.length > 1 then
    .error (.exception ("more than one LSF job is being processed for " ++ jobName))
  else
    pure onStatuses.isEmpty

/-- Number of records of a list whose status is present and not terminal. -/
def activeCount (infos : List Dict) : Nat :=
  (infos.filter fun info =>
    match dictGet info STATUS with
    | some s => !OFF_STATUSES.contains s
    | none => false).length

/-!
## Submission-output parsing: bsub (app/lsf.py) and submitToLSF (webapp/LSF.py)

Both run the external bsub command and then apply
`re.search('<(\d+)>', output)`; on a match they return group 1, otherwise
they raise.  `re.search` scans positions left to right; at a position the
pattern matches when the character is `<`, followed by the maximal nonempty
run of digits, followed by `>` (a shorter run of digits would have to be
followed by `>` at a digit, so the greedy run is forced).
-/

/-- At a position just after a `<`: the captured digits when the pattern
`<(\d+)>` matches at that `<`. -/
def digitsThenGt (rest : List Char) : Option (List Char) :=
  let ds := rest.takeWhile isDigitChar
  if ds.isEmpty then none
  else
    match rest.drop ds.length with
    | [] => none
    | c :: _ => if c = '>' then some ds else none

/-- `re.search('<(\d+)>', output)`: group 1 of the leftmost match.
Positions are scanned left to right; a failed position advances by one
character. -/
def findBracketNum : List Char → Option (List Char)
  | [] => none
  | c :: rest =>
      if c = '<' then
        match digitsThenGt rest with
        | some ds => some ds
        | none => findBracketNum rest
      else findBracketNum rest

/-- `bsub` (app/lsf.py), as a function of the submission output: the job id
inside angle brackets, or a raised exception when the output has none. -/
def bsub (output : String) : Except PyErr String :=
  match findBracketNum output.data with
  | some ds => .ok (String.mk ds)
  | none => .error (.exception
      ("bsub(): failed to find job id for submitted job.  submission output=" ++ output))

/-- `submitToLSF` (webapp/LSF.py): identical extraction from the submission
output. -/
def submitToLSF (output : String) : Except PyErr String :=
  match findBracketNum output.data with
  | some ds => .ok (String.mk ds)
  | none => .error (.exception
      ("submitToLSF: failed to find job id for submitted job.  submission output=" ++ output))

/-!
## dbutil.doTransaction

The context manager wraps `executeSQL(conn, startSQL)` (when `start`) and
the with-block body in a try: on any exception it calls `rollback()` and
re-raises; otherwise it calls `commit()`.  Connections are embedded by the
events they receive; the start statement and the body are embedded by their
outcomes.  When the start statement raises, the body never runs.
-/

/-- Calls made on the connection by `doTransaction`, in order. -/
inductive TxEvent where
  | exec (sql : String)
  | commit
  | rollback
  deriving DecidableEq

/-- `doTransaction(conn, start, startSQL)` around a body: the list of calls
made on the connection and the overall outcome. -/
def doTransaction (start : Bool) (startSQL : String)
    (startRes : Except PyErr Unit) (bodyRes : Except PyErr Unit) :
    List TxEvent × Except PyErr Unit :=
  if start then
    match startRes with
    | .error e => ([.exec startSQL, .rollback], .error e)
    | .ok _ =>
        match bodyRes with
        | .ok _ => ([.exec startSQL, .commit], .ok ())
        | .error e => ([.exec startSQL, .rollback], .error e)
  else
    match bodyRes with
    | .ok _ => ([.commit], .ok ())
    | .error e => ([.rollback], .error e)

/-!
## Lemmas about the regex matcher
-/

theorem starSuffixes_mem {p : Char → Bool} {lzy : Bool} :
    ∀ {s r : List Char}, r ∈ starSuffixes p lzy s →
      ∃ pre, s = pre ++ r ∧ ∀ c ∈ pre, p c = true := by
  intro s
  induction s with
  | nil =>
      intro r h
      simp [starSuffixes] at h
      exact ⟨[], by simp [h]⟩
  | cons c rest ih =>
      intro r h
      simp only [starSuffixes] at h
      by_cases hp : p c = true
      · rw [if_pos hp] at h
        rcases lzy with _ | _
        · simp only [Bool.false_eq_true, if_false, List.mem_append,
            List.mem_singleton] at h
          rcases h with h | h
          · obtain ⟨pre, hpre, hall⟩ := ih h
            exact ⟨c :: pre, by simp [hpre], by
              intro x hx
              rcases List.mem_cons.1 hx with rfl | hx
              · exact hp
              · exact hall x hx⟩
          · exact ⟨[], by simp [h]⟩
        · simp only [if_true, List.mem_cons] at h
          rcases h with h | h
          · exact ⟨[], by simp [h]⟩
          · obtain ⟨pre, hpre, hall⟩ := ih h
            exact ⟨c :: pre, by simp [hpre], by
              intro x hx
              rcases List.mem_cons.1 hx with rfl | hx
              · exact hp
              · exact hall x hx⟩
      · rw [if_neg hp] at h
        simp at h
        exact ⟨[], by simp [h]⟩

theorem reRun_seq_mem {a b : RE} {s r : List Char} {cs : Caps}
    (h : (r, cs) ∈ reRun (.seq a b) s) :
    ∃ r1 cs1 cs2, (r1, cs1) ∈ reRun a s ∧ (r, cs2) ∈ reRun b r1 ∧ cs = cs2 ++ cs1 := by
  simp only [reRun, List.mem_flatMap, List.mem_map] at h
  obtain ⟨⟨r1, cs1⟩, h1, ⟨r2, cs2⟩, h2, heq⟩ := h
  obtain ⟨hr, hc⟩ := Prod.mk.injEq .. ▸ heq
  exact ⟨r1, cs1, cs2, h1, by simpa [← hr] using h2, hc.symm⟩

theorem reRun_group_mem {i : Nat} {a : RE} {s r : List Char} {cs : Caps}
    (h : (r, cs) ∈ reRun (.group i a) s) :
    ∃ cs', (r, cs') ∈ reRun a s ∧
      cs = (i, s.take (s.length - r.length)) :: cs' := by
  simp only [reRun, List.mem_map] at h
  obtain ⟨⟨r1, cs1⟩, h1, heq⟩ := h
  obtain ⟨hr, hc⟩ := Prod.mk.injEq .. ▸ heq
  exact ⟨cs1, by simpa [← hr] using h1, by simp [← hc, ← hr]⟩

/-- Regexes without capture groups. -/
def noGroups : RE → Bool
  | .cls _ => true
  | .seq a b => noGroups a && noGroups b
  | .starCls _ _ => true
  | .group _ _ => false
  | .eol => true

theorem reRun_noGroups {re : RE} (hng : noGroups re = true) :
    ∀ {s r : List Char} {cs : Caps}, (r, cs) ∈ reRun re s →
      cs = [] ∧ ∃ pre, s = pre ++ r := by
  induction re with
  | cls p =>
      intro s r cs h
      cases s with
      | nil => simp [reRun] at h
      | cons c rest =>
        simp only [reRun] at h
        by_cases hp : p c = true
        · rw [if_pos hp] at h
          simp at h
          exact ⟨h.2, [c], by simp [h.1]⟩
        · rw [if_neg hp] at h
          simp at h
  | seq a b iha ihb =>
      intro s r cs h
      obtain ⟨r1, cs1, cs2, h1, h2, hcs⟩ := reRun_seq_mem h
      simp only [noGroups, Bool.and_eq_true] at hng
      obtain ⟨hc1, ⟨p1, hp1⟩⟩ := iha hng.1 h1
      obtain ⟨hc2, ⟨p2, hp2⟩⟩ := ihb hng.2 h2
      exact ⟨by simp [hcs, hc1, hc2], p1 ++ p2, by simp [hp1, hp2]⟩
  | starCls p lzy =>
      intro s r cs h
      simp only [reRun, List.mem_map] at h
      obtain ⟨r1, h1, heq⟩ := h
      obtain ⟨hr, hc⟩ := Prod.mk.injEq .. ▸ heq
      obtain ⟨pre, hpre, -⟩ := starSuffixes_mem (hr ▸ h1)
      exact ⟨hc.symm, pre, hpre⟩
  | group i a ih => simp [noGroups] at hng
  | eol =>
      intro s r cs h
      simp only [reRun] at h
      by_cases hcond : (s = [] || s = ['\n']) = true
      · rw [if_pos hcond] at h
        simp at h
        exact ⟨h.2, [], by simp [h.1]⟩
      · rw [if_neg hcond] at h
        simp at h

theorem take_sub_append (pre r : List Char) :
    (pre ++ r).take ((pre ++ r).length - r.length) = pre := by
  have hl : (pre ++ r).length - r.length = pre.length := by
    simp [List.length_append]
  rw [hl, List.take_left]

theorem reRun_plusCls_mem {p : Char → Bool} {s r : List Char} {cs : Caps}
    (h : (r, cs) ∈ reRun (plusCls p) s) :
    cs = [] ∧ ∃ pre, s = pre ++ r ∧ pre ≠ [] ∧ ∀ c ∈ pre, p c = true := by
  obtain ⟨r1, cs1, cs2, h1, h2, hcs⟩ := reRun_seq_mem h
  cases s with
  | nil => simp [reRun] at h1
  | cons c rest =>
    simp only [reRun] at h1
    by_cases hp : p c = true
    · rw [if_pos hp] at h1
      simp at h1
      obtain ⟨hr1, hcs1⟩ := h1
      simp only [reRun, List.mem_map] at h2
      obtain ⟨r2, h2m, heq⟩ := h2
      obtain ⟨hr, hc⟩ := Prod.mk.injEq .. ▸ heq
      obtain ⟨pre2, hpre2, hall2⟩ := starSuffixes_mem (hr ▸ h2m)
      refine ⟨by simp [hcs, hcs1, ← hc], c :: pre2, ?_, by simp, ?_⟩
      · simp [hr1 ▸ hpre2]
      · intro x hx
        rcases List.mem_cons.1 hx with rfl | hx
        · exact hp
        · exact hall2 x hx
    · rw [if_neg hp] at h1
      simp at h1

theorem reRun_tokGroup_mem {i : Nat} {s r : List Char} {cs : Caps}
    (h : (r, cs) ∈ reRun (tokGroup i) s) :
    ∃ pre, s = pre ++ r ∧ cs = [(i, pre)] ∧ pre ≠ [] ∧ ∀ c ∈ pre, nonWS c = true := by
  obtain ⟨cs', h1, hcs⟩ := reRun_group_mem h
  obtain ⟨hcs', pre, hs, hne, hall⟩ := reRun_plusCls_mem h1
  refine ⟨pre, hs, ?_, hne, hall⟩
  rw [hcs, hcs', hs, take_sub_append]

theorem reRun_group7_mem {s r : List Char} {cs : Caps}
    (h : (r, cs) ∈ reRun (.group 7 (.starCls dotCls true)) s) :
    ∃ pre, s = pre ++ r ∧ cs = [(7, pre)] := by
  obtain ⟨cs', h1, hcs⟩ := reRun_group_mem h
  obtain ⟨hcs', pre, hs⟩ := reRun_noGroups (by rfl) h1
  exact ⟨pre, hs, by rw [hcs, hcs', hs, take_sub_append]⟩

theorem reRun_submitGroup_mem {s r : List Char} {cs : Caps}
    (h : (r, cs) ∈ reRun submitGroup s) :
    ∃ pre, s = pre ++ r ∧ cs = [(8, pre)] := by
  obtain ⟨cs', h1, hcs⟩ := reRun_group_mem h
  obtain ⟨hcs', pre, hs⟩ := reRun_noGroups (by rfl) h1
  exact ⟨pre, hs, by rw [hcs, hcs', hs, take_sub_append]⟩

/-- Any successful match of the bjobs pattern assigns all eight groups, and
groups 1 and 3 (job id and status) are nonempty runs of non-whitespace
characters. -/
theorem matchLine_caps {s : List Char} {caps : Caps} (h : matchLine s = some caps) :
    ∃ t1 t2 t3 t4 t5 t6 g7 t8,
      caps = [(8, t8), (7, g7), (6, t6), (5, t5), (4, t4), (3, t3), (2, t2), (1, t1)] ∧
      t1 ≠ [] ∧ (∀ c ∈ t1, nonWS c = true) ∧
      t3 ≠ [] ∧ (∀ c ∈ t3, nonWS c = true) := by
  obtain ⟨pr, hh, hsnd⟩ := Option.map_eq_some'.1 h
  have hmem : pr ∈ reRun bjobsRE s := List.mem_of_mem_head? (Option.mem_def.mpr hh)
  obtain ⟨r0, caps0⟩ := pr
  simp only at hsnd
  subst hsnd
  unfold bjobsRE at hmem
  obtain ⟨r1, csA1, csB1, hA1, hB1, hc1⟩ := reRun_seq_mem hmem
  obtain ⟨t1, hs1, hcsA1, hne1, hall1⟩ := reRun_tokGroup_mem hA1
  obtain ⟨r2, csA2, csB2, hA2, hB2, hc2⟩ := reRun_seq_mem hB1
  obtain ⟨hcsA2, -⟩ := reRun_noGroups (by rfl) hA2
  obtain ⟨r3, csA3, csB3, hA3, hB3, hc3⟩ := reRun_seq_mem hB2
  obtain ⟨t2, hs3, hcsA3, hne2, hall2⟩ := reRun_tokGroup_mem hA3
  obtain ⟨r4, csA4, csB4, hA4, hB4, hc4⟩ := reRun_seq_mem hB3
  obtain ⟨hcsA4, -⟩ := reRun_noGroups (by rfl) hA4
  obtain ⟨r5, csA5, csB5, hA5, hB5, hc5⟩ := reRun_seq_mem hB4
  obtain ⟨t3, hs5, hcsA5, hne3, hall3⟩ := reRun_tokGroup_mem hA5
  obtain ⟨r6, csA6, csB6, hA6, hB6, hc6⟩ := reRun_seq_mem hB5
  obtain ⟨hcsA6, -⟩ := reRun_noGroups (by rfl) hA6
  obtain ⟨r7, csA7, csB7, hA7, hB7, hc7⟩ := reRun_seq_mem hB6
  obtain ⟨t4, hs7, hcsA7, hne4, hall4⟩ := reRun_tokGroup_mem hA7
  obtain ⟨r8, csA8, csB8, hA8, hB8, hc8⟩ := reRun_seq_mem hB7
  obtain ⟨hcsA8, -⟩ := reRun_noGroups (by rfl) hA8
  obtain ⟨r9, csA9, csB9, hA9, hB9, hc9⟩ := reRun_seq_mem hB8
  obtain ⟨t5, hs9, hcsA9, hne5, hall5⟩ := reRun_tokGroup_mem hA9
  obtain ⟨r10, csA10, csB10, hA10, hB10, hc10⟩ := reRun_seq_mem hB9
  obtain ⟨hcsA10, -⟩ := reRun_noGroups (by rfl) hA10
  obtain ⟨r11, csA11, csB11, hA11, hB11, hc11⟩ := reRun_seq_mem hB10
  obtain ⟨t6, hs11, hcsA11, hne6, hall6⟩ := reRun_tokGroup_mem hA11
  obtain ⟨r12, csA12, csB12, hA12, hB12, hc12⟩ := reRun_seq_mem hB11
  obtain ⟨hcsA12, -⟩ := reRun_noGroups (by rfl) hA12
  obtain ⟨r13, csA13, csB13, hA13, hB13, hc13⟩ := reRun_seq_mem hB12
  obtain ⟨g7, hs13, hcsA13⟩ := reRun_group7_mem hA13
  obtain ⟨r14, csA14, csB14, hA14, hB14, hc14⟩ := reRun_seq_mem hB13
  obtain ⟨hcsA14, -⟩ := reRun_noGroups (by rfl) hA14
  obtain ⟨r15, csA15, csB15, hA15, hB15, hc15⟩ := reRun_seq_mem hB14
  obtain ⟨t8, hs15, hcsA15⟩ := reRun_submitGroup_mem hA15
  obtain ⟨hcsB15, -⟩ := reRun_noGroups (by rfl) hB15
  refine ⟨t1, t2, t3, t4, t5, t6, g7, t8, ?_, hne1, hall1, hne3, hall3⟩
  subst hc1 hc2 hc3 hc4 hc5 hc6 hc7 hc8 hc9 hc10 hc11 hc12 hc13 hc14 hc15
  subst hcsA1 hcsA2 hcsA3 hcsA4 hcsA5 hcsA6 hcsA7 hcsA8 hcsA9 hcsA10
  subst hcsA11 hcsA12 hcsA13 hcsA14 hcsA15 hcsB15
  simp

theorem capOf_explicit (t1 t2 t3 t4 t5 t6 g7 t8 : List Char) :
    capOf [(8, t8), (7, g7), (6, t6), (5, t5), (4, t4), (3, t3), (2, t2), (1, t1)] 1 = t1 ∧
    capOf [(8, t8), (7, g7), (6, t6), (5, t5), (4, t4), (3, t3), (2, t2), (1, t1)] 3 = t3 ∧
    capOf [(8, t8), (7, g7), (6, t6), (5, t5), (4, t4), (3, t3), (2, t2), (1, t1)] 7 = g7 := by
  simp [capOf, List.find?]

theorem mk_ne_empty {l : List Char} (h : l ≠ []) : String.mk l ≠ "" := by
  intro heq
  exact h (congrArg String.data heq)

/-- Every record produced by parsing bjobs output is a three-key dict whose
job id and status are nonempty whitespace-free strings. -/
theorem parse_record_shape {output : String} {info : Dict}
    (h : info ∈ parseBjobsOutput output) :
    ∃ jid st nm : String,
      info = [(JOBID, jid), (STATUS, st), (JOB_NAME, nm)] ∧
      jid ≠ "" ∧ jid.data.all nonWS = true ∧
      st ≠ "" ∧ st.data.all nonWS = true := by
  obtain ⟨line, -, hinfo⟩ := List.mem_filterMap.1 h
  obtain ⟨caps, hm, hrec⟩ := Option.map_eq_some'.1 hinfo
  obtain ⟨t1, t2, t3, t4, t5, t6, g7, t8, hcaps, hne1, hall1, hne3, hall3⟩ :=
    matchLine_caps hm
  subst hcaps
  obtain ⟨he1, he3, he7⟩ := capOf_explicit t1 t2 t3 t4 t5 t6 g7 t8
  refine ⟨String.mk t1, String.mk t3, String.mk g7, ?_, mk_ne_empty hne1, ?_,
    mk_ne_empty hne3, ?_⟩
  · rw [← hrec, he1, he3, he7]
  · exact List.all_eq_true.2 hall1
  · exact List.all_eq_true.2 hall3

theorem isEmpty_eq_of_length_eq {α β : Type} {l1 : List α} {l2 : List β}
    (h : l1.length = l2.length) : l1.isEmpty = l2.isEmpty := by
  cases l1 <;> cases l2 <;> simp_all

instance {ε α : Type} [DecidableEq ε] [DecidableEq α] : DecidableEq (Except ε α) := fun x y =>
  match x, y with
  | .ok a, .ok b =>
      if h : a = b then isTrue (by rw [h]) else isFalse (by simp [h])
  | .error e, .error f =>
      if h : e = f then isTrue (by rw [h]) else isFalse (by simp [h])
  | .ok _, .error _ => isFalse (by simp)
  | .error _, .ok _ => isFalse (by simp)

@[simp] theorem exceptBind_ok {ε α β : Type} (a : α) (f : α → Except ε β) :
    (Except.ok a : Except ε α) >>= f = f a := rfl

@[simp] theorem exceptBind_error {ε α β : Type} (e : ε) (f : α → Except ε β) :
    (Except.error e : Except ε α) >>= f = Except.error e := rfl

@[simp] theorem exceptMap_ok {ε α β : Type} (f : α → β) (a : α) :
    Except.map f (Except.ok a : Except ε α) = Except.ok (f a) := rfl

@[simp] theorem exceptMap_error {ε α β : Type} (f : α → β) (e : ε) :
    Except.map f (Except.error e : Except ε α) = Except.error e := rfl

/-- `infosAreOff` answers `True` exactly when every record has a status and
every status is terminal. -/
theorem infosAreOff_ok_true_iff (records : List Dict) :
    infosAreOff records = .ok true ↔
      ∀ r ∈ records, ∃ s, dictGet r STATUS = some s ∧ s ∈ OFF_STATUSES := by
  induction records with
  | nil => simp [infosAreOff, onInfos]
  | cons info rest ih =>
      cases hst : dictGet info STATUS with
      | none =>
          simp only [infosAreOff, onInfos, statusOf, hst, Except.map, Except.bind]
          constructor
          · intro habs; exact Except.noConfusion habs
          · intro hall
            obtain ⟨s, hs, -⟩ := hall info (List.mem_cons_self info rest)
            rw [hst] at hs
            exact Option.noConfusion hs
      | some s =>
          cases hrest : onInfos rest with
          | error e =>
              have hoff : infosAreOff rest ≠ .ok true := by
                simp [infosAreOff, hrest, Except.map]
              constructor
              · intro habs
                exfalso
                apply hoff
                simp only [infosAreOff, onInfos, statusOf, hst, hrest,
                  Except.map, Except.bind] at habs
                exact Except.noConfusion habs
              · intro hall
                exfalso
                exact hoff (ih.2 fun r hr => hall r (List.mem_cons_of_mem _ hr))
          | ok l =>
              by_cases hoffs : OFF_STATUSES.contains s = true
              · have hmem : s ∈ OFF_STATUSES := by simpa using hoffs
                have hstep : infosAreOff (info :: rest) = .ok l.isEmpty := by
                  simp [infosAreOff, onInfos, statusOf, hst, hrest, hmem,
                    Except.map, Except.bind, pure, Except.pure]
                have hrest' : infosAreOff rest = .ok l.isEmpty := by
                  simp [infosAreOff, hrest, Except.map]
                constructor
                · intro hok
                  intro r hr
                  rcases List.mem_cons.1 hr with rfl | hr
                  · exact ⟨s, hst, by simpa using hoffs⟩
                  · refine (ih.1 ?_) r hr
                    rw [hrest']
                    rw [hstep] at hok
                    exact hok
                · intro hall
                  rw [hstep, ← hrest']
                  exact ih.2 fun r hr => hall r (List.mem_cons_of_mem _ hr)
              · have hmem : s ∉ OFF_STATUSES := by simpa using hoffs
                have hstep : infosAreOff (info :: rest) = .ok false := by
                  simp [infosAreOff, onInfos, statusOf, hst, hrest, hmem,
                    Except.map, Except.bind, pure, Except.pure]
                rw [hstep]
                constructor
                · intro habs
                  exact absurd (Except.ok.injEq .. ▸ habs) (by simp)
                · intro hall
                  obtain ⟨s', hs', hmem⟩ := hall info (List.mem_cons_self info rest)
                  rw [hst] at hs'
                  obtain rfl : s = s' := Option.some.injEq .. ▸ hs'
                  exact absurd (by simpa using hmem) (by simpa using hoffs)

/-- When every record carries a status, both the record filter of
app/lsf.py and the status filter of webapp/LSF.py succeed, and they keep
the same number of active entries. -/
theorem onInfos_statuses (infos : List Dict)
    (h : ∀ r ∈ infos, (dictGet r STATUS).isSome) :
    ∃ l ss, onInfos infos = .ok l ∧ statusesOf infos = .ok ss ∧
      (ss.filter fun s => !OFF_STATUSES.contains s).length = l.length ∧
      l.length = activeCount infos := by
  induction infos with
  | nil => exact ⟨[], [], rfl, rfl, rfl, rfl⟩
  | cons info rest ih =>
      obtain ⟨l, ss, hl, hss, hlen, hcount⟩ :=
        ih fun r hr => h r (List.mem_cons_of_mem _ hr)
      have hinfo := h info (List.mem_cons_self info rest)
      obtain ⟨s, hs⟩ := Option.isSome_iff_exists.1 hinfo
      by_cases hoffs : OFF_STATUSES.contains s = true
      · have hmem : s ∈ OFF_STATUSES := by simpa using hoffs
        refine ⟨l, s :: ss, ?_, ?_, ?_, ?_⟩
        · simp [onInfos, statusOf, hs, hl, hmem, pure, Except.pure]
        · simp [statusesOf, statusOf, hs, hss, pure, Except.pure]
        · simpa [List.filter_cons, hmem] using hlen
        · rw [hcount]
          simp [activeCount, List.filter_cons, hs, hmem]
      · have hmem : s ∉ OFF_STATUSES := by simpa using hoffs
        refine ⟨info :: l, s :: ss, ?_, ?_, ?_, ?_⟩
        · simp [onInfos, statusOf, hs, hl, hmem, pure, Except.pure]
        · simp [statusesOf, statusOf, hs, hss, pure, Except.pure]
        · simpa [List.filter_cons, hmem] using hlen
        · rw [List.length_cons, hcount]
          simp [activeCount, List.filter_cons, hs, hmem]

/-!
## Lemmas about the submission-output scan
-/

theorem digitsThenGt_some {rest ds : List Char} (h : digitsThenGt rest = some ds) :
    ds ≠ [] ∧ (∀ c ∈ ds, isDigitChar c = true) ∧ ∃ b, rest = ds ++ '>' :: b := by
  unfold digitsThenGt at h
  by_cases hemp : (rest.takeWhile isDigitChar).isEmpty = true
  · rw [if_pos hemp] at h
    exact Option.noConfusion h
  · rw [if_neg hemp] at h
    cases hdrop : rest.drop (rest.takeWhile isDigitChar).length with
    | nil => rw [hdrop] at h; exact Option.noConfusion h
    | cons c tail =>
        rw [hdrop] at h
        change (if c = '>' then some (rest.takeWhile isDigitChar) else none) = some ds at h
        by_cases hgt : c = '>'
        · rw [if_pos hgt] at h
          subst hgt
          obtain rfl : rest.takeWhile isDigitChar = ds := by simpa using h
          refine ⟨by simpa using hemp, fun c hc => List.mem_takeWhile_imp hc, tail, ?_⟩
          obtain ⟨t, ht⟩ := List.takeWhile_prefix (l := rest) isDigitChar
          have hdt : rest.drop (rest.takeWhile isDigitChar).length = t := by
            have hdl := List.drop_left (rest.takeWhile isDigitChar) t
            rw [ht] at hdl
            exact hdl
          have htail : t = '>' :: tail := hdt.symm.trans hdrop
          rw [← htail]
          exact ht.symm
        · rw [if_neg hgt] at h
          exact Option.noConfusion h

theorem digitsThenGt_complete {d b : List Char} (hd : d ≠ [])
    (hall : ∀ c ∈ d, isDigitChar c = true) :
    digitsThenGt (d ++ '>' :: b) = some d := by
  have hself : d.takeWhile isDigitChar = d := List.takeWhile_eq_self_iff.2 hall
  have htw : (d ++ '>' :: b).takeWhile isDigitChar = d := by
    rw [List.takeWhile_append, hself]
    simp [List.takeWhile_cons_of_neg, show isDigitChar '>' = false by decide]
  unfold digitsThenGt
  rw [htw, if_neg (by simpa using hd), List.drop_left]
  change (if ('>' : Char) = '>' then some d else none) = some d
  rw [if_pos rfl]

theorem findBracketNum_none {s : List Char} (h : findBracketNum s = none) :
    ∀ a d b : List Char, s = a ++ '<' :: (d ++ '>' :: b) → d ≠ [] →
      (∀ c ∈ d, isDigitChar c = true) → False := by
  induction s with
  | nil =>
      intro a d b habs _ _
      exact absurd habs (by simp)
  | cons c rest ih =>
      intro a d b hs hd hall
      unfold findBracketNum at h
      by_cases hc : c = '<'
      · rw [if_pos hc] at h
        cases hdg : digitsThenGt rest with
        | some ds => rw [hdg] at h; exact Option.noConfusion h
        | none =>
            rw [hdg] at h
            cases a with
            | nil =>
                simp only [List.nil_append, List.cons.injEq] at hs
                rw [hs.2] at hdg
                rw [digitsThenGt_complete hd hall] at hdg
                exact Option.noConfusion hdg
            | cons a0 a' =>
                simp only [List.cons_append, List.cons.injEq] at hs
                exact ih h a' d b hs.2 hd hall
      · rw [if_neg hc] at h
        cases a with
        | nil =>
            simp only [List.nil_append, List.cons.injEq] at hs
            exact hc hs.1
        | cons a0 a' =>
            simp only [List.cons_append, List.cons.injEq] at hs
            exact ih h a' d b hs.2 hd hall

theorem findBracketNum_some {s : List Char} :
    ∀ {d : List Char}, findBracketNum s = some d →
      d ≠ [] ∧ (∀ c ∈ d, isDigitChar c = true) ∧
      ∃ a b, s = a ++ '<' :: (d ++ '>' :: b) ∧
        ∀ a' d' b', s = a' ++ '<' :: (d' ++ '>' :: b') → d' ≠ [] →
          (∀ c ∈ d', isDigitChar c = true) → a.length ≤ a'.length := by
  induction s with
  | nil => intro d h; simp [findBracketNum] at h
  | cons c rest ih =>
      intro d h
      unfold findBracketNum at h
      by_cases hc : c = '<'
      · rw [if_pos hc] at h
        cases hdg : digitsThenGt rest with
        | some ds =>
            rw [hdg] at h
            obtain rfl : ds = d := by simpa using h
            obtain ⟨hne, hall, b, hb⟩ := digitsThenGt_some hdg
            refine ⟨hne, hall, [], b, by simp [hc, hb], ?_⟩
            intro a' d' b' _ _ _
            exact Nat.zero_le _
        | none =>
            rw [hdg] at h
            obtain ⟨hne, hall, a0, b0, hs0, hmin⟩ := ih h
            refine ⟨hne, hall, c :: a0, b0, by simp [hs0], ?_⟩
            intro a' d' b' hs' hd' hall'
            cases a' with
            | nil =>
                simp only [List.nil_append, List.cons.injEq] at hs'
                rw [hs'.2] at hdg
                rw [digitsThenGt_complete hd' hall'] at hdg
                exact Option.noConfusion hdg
            | cons a0' a'' =>
                simp only [List.cons_append, List.cons.injEq] at hs'
                have := hmin a'' d' b' hs'.2 hd' hall'
                simpa using Nat.succ_le_succ this
      · rw [if_neg hc] at h
        obtain ⟨hne, hall, a0, b0, hs0, hmin⟩ := ih h
        refine ⟨hne, hall, c :: a0, b0, by simp [hs0], ?_⟩
        intro a' d' b' hs' hd' hall'
        cases a' with
        | nil =>
            simp only [List.nil_append, List.cons.injEq] at hs'
            exact absurd hs'.1 hc
        | cons a0' a'' =>
            simp only [List.cons_append, List.cons.injEq] at hs'
            have := hmin a'' d' b' hs'.2 hd' hall'
            simpa using Nat.succ_le_succ this

/-!
## Claim theorems
-/

/-- C1 counterexample: the spec's example line, taken exactly as written
(with no trailing line terminator), does not match the pattern at all —
the pattern ends in a mandatory run of whitespace before the anchor, and
the bare line ends in a non-whitespace character — so parsing it yields no
record rather than the claimed one. -/
theorem claim_C1_counterexample :
    lineInfo "461830  td23    RUN   cbi_unlimited host1 host2 foo bar        Mar  3 10:36".data = none ∧
    parseBjobsOutput "461830  td23    RUN   cbi_unlimited host1 host2 foo bar        Mar  3 10:36" = [] := by
  constructor
  · decide
  · decide

/-- C1 (amended): for every output line that matches the pattern, parsing
produces the record whose jobId, status and jobName are exactly capture
groups 1, 3 and 7, with all other fields discarded; and the spec's example
line parses to (461830, RUN, foo bar) once it carries its line terminator,
as every line produced by splitlines(True) on bjobs output does.  The exact
string without a terminator matches nothing (see the counterexample). -/
theorem claim_C1 :
    (∀ (line : List Char) (caps : Caps), matchLine line = some caps →
      lineInfo line = some [(JOBID, String.mk (capOf caps 1)),
                            (STATUS, String.mk (capOf caps 3)),
                            (JOB_NAME, String.mk (capOf caps 7))]) ∧
    lineInfo "461830  td23    RUN   cbi_unlimited host1 host2 foo bar        Mar  3 10:36\n".data
      = some [(JOBID, "461830"), (STATUS, "RUN"), (JOB_NAME, "foo bar")] := by
  constructor
  · intro line caps hm
    simp [lineInfo, hm]
  · decide

/-- Witness for C1 at a concrete matching line. -/
theorem claim_C1_witness :
    matchLine "a b c d e f g h i j\n".data =
      some [(8, ['h', ' ', 'i', ' ', 'j']), (7, ['g']), (6, ['f']), (5, ['e']),
            (4, ['d']), (3, ['c']), (2, ['b']), (1, ['a'])] ∧
    lineInfo "a b c d e f g h i j\n".data =
      some [(JOBID, "a"), (STATUS, "c"), (JOB_NAME, "g")] := by
  refine ⟨by decide, ?_⟩
  rw [claim_C1.1 "a b c d e f g h i j\n".data
    [(8, ['h', ' ', 'i', ' ', 'j']), (7, ['g']), (6, ['f']), (5, ['e']),
     (4, ['d']), (3, ['c']), (2, ['b']), (1, ['a'])] (by decide)]
  decide

/-- C2: isOff is True exactly when the record list is empty or every
record's status is terminal (DONE, EXIT or ZOMBI); the three concrete
examples hold, and isOn is the pointwise logical negation of isOff. -/
theorem claim_C2 :
    (∀ records : List Dict,
      infosAreOff records = .ok true ↔
        (records = [] ∨
          ∀ r ∈ records, ∃ s, dictGet r STATUS = some s ∧ s ∈ OFF_STATUSES)) ∧
    infosAreOff [] = .ok true ∧
    infosAreOff [[(STATUS, "DONE")]] = .ok true ∧
    infosAreOff [[(STATUS, "RUN")]] = .ok false ∧
    (∀ records : List Dict,
      infosAreOn records = (infosAreOff records).map (fun b => !b)) := by
  refine ⟨?_, by decide, by decide, by decide, fun records => rfl⟩
  intro records
  rw [infosAreOff_ok_true_iff]
  constructor
  · exact Or.inr
  · rintro (rfl | hall)
    · intro r hr
      exact absurd hr (List.not_mem_nil r)
    · exact hall

/-- Witness for C2. -/
theorem claim_C2_witness :
    infosAreOff [[(STATUS, "DONE")], [(STATUS, "EXIT")]] = .ok true := by
  refine (claim_C2.1 _).mpr (Or.inr ?_)
  intro r hr
  rcases List.mem_cons.1 hr with rfl | hr
  · exact ⟨"DONE", by decide, by decide⟩
  · rcases List.mem_cons.1 hr with rfl | hr
    · exact ⟨"EXIT", by decide, by decide⟩
    · exact absurd hr (List.not_mem_nil r)

/-- C4 counterexample: with an explicitly empty id list the code does not
substitute the sentinel list ['0']; the argument vector is the bare
`bjobs -a -u all -w` with no trailing id. -/
theorem claim_C4_counterexample :
    getJobInfosArgs (some []) = ["bjobs", "-a", "-u", "all", "-w"] ∧
    getJobInfosArgs (some []) ≠ ["bjobs", "-a", "-u", "all", "-w", "0"] := by
  constructor
  · rfl
  · decide

/-- C4 (amended): only an unset (None) id list is replaced by the sentinel
list ['0']; an explicitly empty list yields the bare base vector with no
ids, and otherwise the vector is exactly `bjobs -a -u all -w` followed by
the given ids; the name query builds exactly `bjobs -a -u all -w -J name`. -/
theorem claim_C4 :
    getJobInfosArgs none = ["bjobs", "-a", "-u", "all", "-w", "0"] ∧
    getJobInfosArgs (some []) = ["bjobs", "-a", "-u", "all", "-w"] ∧
    (∀ ids : List String,
      getJobInfosArgs (some ids) = ["bjobs", "-a", "-u", "all", "-w"] ++ ids) ∧
    (∀ name : String,
      getJobNameArgs name = ["bjobs", "-a", "-u", "all", "-w", "-J", name]) := by
  exact ⟨rfl, rfl, fun ids => rfl, fun name => rfl⟩

/-- C3: with retry, an empty first result leads to exactly one additional
query, preceded by a sleep of the full delay; without retry there is exactly
one query regardless of the result; and a non-empty first result leads to a
single query and no sleep even with retry.  Both the app-side
`getJobNameInfos` and the webapp-side `getJobNameStatuses` follow this
trace. -/
theorem claim_C3 :
    (∀ (oracle : Nat → Except PyErr String) (name : String) (delay : ℚ),
      getJobInfosSub (oracle 0) = .ok [] →
        (getJobNameInfos oracle name true delay).2 =
          [.query (getJobNameArgs name), .sleep delay, .query (getJobNameArgs name)] ∧
        (getJobNameStatuses oracle name true delay).2 =
          [.query (getJobNameArgs name), .sleep delay, .query (getJobNameArgs name)]) ∧
    (∀ (oracle : Nat → Except PyErr String) (name : String) (delay : ℚ),
      (getJobNameInfos oracle name false delay).2 = [.query (getJobNameArgs name)] ∧
      (getJobNameStatuses oracle name false delay).2 = [.query (getJobNameArgs name)]) ∧
    (∀ (oracle : Nat → Except PyErr String) (name : String) (delay : ℚ)
        (retry : Bool) (infos : List Dict),
      getJobInfosSub (oracle 0) = .ok infos → infos ≠ [] →
        (getJobNameInfos oracle name retry delay).2 = [.query (getJobNameArgs name)] ∧
        (getJobNameStatuses oracle name retry delay).2 = [.query (getJobNameArgs name)]) := by
  refine ⟨?_, ?_, ?_⟩
  · intro oracle name delay h
    constructor
    · simp [getJobNameInfos, queryWithRetry, h]
    · simp [getJobNameStatuses, queryWithRetry, h]
  · intro oracle name delay
    constructor
    · cases h : getJobInfosSub (oracle 0) with
      | error e => simp [getJobNameInfos, queryWithRetry, h]
      | ok infos => simp [getJobNameInfos, queryWithRetry, h]
    · cases h : getJobInfosSub (oracle 0) with
      | error e => simp [getJobNameStatuses, queryWithRetry, h]
      | ok infos => simp [getJobNameStatuses, queryWithRetry, h]
  · intro oracle name delay retry infos h hne
    have hemp : infos.isEmpty = false := by
      cases infos with
      | nil => exact absurd rfl hne
      | cons a l => rfl
    constructor
    · simp [getJobNameInfos, queryWithRetry, h, hemp]
    · simp [getJobNameStatuses, queryWithRetry, h, hemp]

/-- Witness for C3: an oracle always answering with empty output. -/
theorem claim_C3_witness :
    getJobInfosSub ((fun _ => .ok "") 0) = .ok [] ∧
    (getJobNameInfos (fun _ => .ok "") "foo" true 1).2 =
      [.query (getJobNameArgs "foo"), .sleep 1, .query (getJobNameArgs "foo")] := by
  refine ⟨by decide, ?_⟩
  exact (claim_C3.1 (fun _ => .ok "") "foo" 1 (by decide)).1

/-- C5: on records all carrying a status, the two variants of the
name-based off-check agree whenever at most one record is active, and
disagree in failure mode when more than one is: the webapp variant raises
while the app variant still returns a boolean. -/
theorem claim_C5 (jobName : String) (infos : List Dict)
    (h : ∀ r ∈ infos, (dictGet r STATUS).isSome) :
    (1 < activeCount infos →
      (∃ e, webappIsJobNameOff jobName infos = .error e) ∧
      (∃ b, appIsJobNameOff infos = .ok b)) ∧
    (activeCount infos ≤ 1 →
      ∃ b, webappIsJobNameOff jobName infos = .ok b ∧
        appIsJobNameOff infos = .ok b) := by
  obtain ⟨l, ss, hl, hss, hlen, hcount⟩ := onInfos_statuses infos h
  constructor
  · intro hgt
    constructor
    · refine ⟨.exception ("more than one LSF job is being processed for " ++ jobName), ?_⟩
      have hfl : (ss.filter fun s => !OFF_STATUSES.contains s).length > 1 := by
        rw [hlen, hcount]; exact hgt
      simp only [webappIsJobNameOff, hss, exceptBind_ok]
      rw [if_pos hfl]
    · exact ⟨l.isEmpty, by simp [appIsJobNameOff, infosAreOff, hl]⟩
  · intro hle
    have hfl : ¬ (ss.filter fun s => !OFF_STATUSES.contains s).length > 1 := by
      rw [hlen, hcount]; exact Nat.not_lt.2 hle
    refine ⟨l.isEmpty, ?_, by simp [appIsJobNameOff, infosAreOff, hl]⟩
    have hie : (ss.filter fun s => !OFF_STATUSES.contains s).isEmpty = l.isEmpty :=
      isEmpty_eq_of_length_eq hlen
    simp only [webappIsJobNameOff, hss, exceptBind_ok]
    rw [if_neg hfl, hie]
    rfl

/-- Witness for C5: two active records under one name. -/
theorem claim_C5_witness :
    (∀ r ∈ ([[(STATUS, "RUN")], [(STATUS, "PEND")]] : List Dict),
      (dictGet r STATUS).isSome) ∧
    1 < activeCount [[(STATUS, "RUN")], [(STATUS, "PEND")]] ∧
    ((∃ e, webappIsJobNameOff "foo" [[(STATUS, "RUN")], [(STATUS, "PEND")]] = .error e) ∧
     (∃ b, appIsJobNameOff [[(STATUS, "RUN")], [(STATUS, "PEND")]] = .ok b)) := by
  refine ⟨by decide, by decide, ?_⟩
  exact (claim_C5 "foo" [[(STATUS, "RUN")], [(STATUS, "PEND")]] (by decide)).1 (by decide)

/-- C6: submission parsing returns the digits of the leftmost bracketed
number in the output; the spec's example yields "789"; and an exception is
raised exactly when the output contains no nonempty digit run enclosed in
angle brackets.  Both the app-side `bsub` and the webapp-side `submitToLSF`
behave this way. -/
theorem claim_C6 :
    bsub "Job <789> is submitted to queue <normal>." = .ok "789" ∧
    submitToLSF "Job <789> is submitted to queue <normal>." = .ok "789" ∧
    (∀ output : String,
      ((∃ e, bsub output = .error e) ↔
        ¬ ∃ a d b, output.data = a ++ '<' :: (d ++ '>' :: b) ∧ d ≠ [] ∧
          ∀ c ∈ d, isDigitChar c = true) ∧
      ((∃ e, submitToLSF output = .error e) ↔
        ¬ ∃ a d b, output.data = a ++ '<' :: (d ++ '>' :: b) ∧ d ≠ [] ∧
          ∀ c ∈ d, isDigitChar c = true)) ∧
    (∀ (output : String) (d : List Char), findBracketNum output.data = some d →
      bsub output = .ok (String.mk d) ∧
      submitToLSF output = .ok (String.mk d) ∧
      d ≠ [] ∧ (∀ c ∈ d, isDigitChar c = true) ∧
      ∃ a b, output.data = a ++ '<' :: (d ++ '>' :: b) ∧
        ∀ a' d' b', output.data = a' ++ '<' :: (d' ++ '>' :: b') → d' ≠ [] →
          (∀ c ∈ d', isDigitChar c = true) → a.length ≤ a'.length) := by
  refine ⟨by decide, by decide, ?_, ?_⟩
  · intro output
    have herr : (∃ e, bsub output = .error e) ↔ findBracketNum output.data = none := by
      constructor
      · intro ⟨e, he⟩
        unfold bsub at he
        cases hfb : findBracketNum output.data with
        | none => rfl
        | some ds => rw [hfb] at he; exact Except.noConfusion he
      · intro hn
        refine ⟨.exception
          ("bsub(): failed to find job id for submitted job.  submission output=" ++ output), ?_⟩
        unfold bsub
        rw [hn]
    have herr2 : (∃ e, submitToLSF output = .error e) ↔
        findBracketNum output.data = none := by
      constructor
      · intro ⟨e, he⟩
        unfold submitToLSF at he
        cases hfb : findBracketNum output.data with
        | none => rfl
        | some ds => rw [hfb] at he; exact Except.noConfusion he
      · intro hn
        refine ⟨.exception
          ("submitToLSF: failed to find job id for submitted job.  submission output=" ++ output), ?_⟩
        unfold submitToLSF
        rw [hn]
    have hiff : findBracketNum output.data = none ↔
        ¬ ∃ a d b, output.data = a ++ '<' :: (d ++ '>' :: b) ∧ d ≠ [] ∧
          ∀ c ∈ d, isDigitChar c = true := by
      constructor
      · intro hn ⟨a, d, b, hs, hd, hall⟩
        exact findBracketNum_none hn a d b hs hd hall
      · intro hno
        cases hfb : findBracketNum output.data with
        | none => rfl
        | some d =>
            obtain ⟨hne, hall, a, b, hs, -⟩ := findBracketNum_some hfb
            exact absurd ⟨a, d, b, hs, hne, hall⟩ hno
    exact ⟨herr.trans hiff, herr2.trans hiff⟩
  · intro output d hfb
    obtain ⟨hne, hall, a, b, hs, hmin⟩ := findBracketNum_some hfb
    refine ⟨?_, ?_, hne, hall, a, b, hs, hmin⟩
    · unfold bsub; rw [hfb]
    · unfold submitToLSF; rw [hfb]

/-- Witness for C6 at the spec's example output. -/
theorem claim_C6_witness :
    findBracketNum "Job <789> is submitted to queue <normal>.".data =
      some ['7', '8', '9'] ∧
    bsub "Job <789> is submitted to queue <normal>." = .ok (String.mk ['7', '8', '9']) := by
  refine ⟨by decide, ?_⟩
  exact (claim_C6.2.2.2 "Job <789> is submitted to queue <normal>." ['7', '8', '9']
    (by decide)).1

/-- C7: a status query propagates exactly the failure of the external
command (cannot be invoked, or non-zero exit); when the command succeeds it
never raises, and when additionally no output line matches the pattern it
returns the empty list as valid data. -/
theorem claim_C7 :
    (∀ e, getJobInfosSub (.error e) = .error e) ∧
    (∀ output : String, getJobInfosSub (.ok output) = .ok (parseBjobsOutput output)) ∧
    (∀ output : String,
      (∀ line ∈ splitlinesKeep output.data, matchLine line = none) →
      getJobInfosSub (.ok output) = .ok []) := by
  refine ⟨fun e => rfl, fun output => rfl, ?_⟩
  intro output hnone
  have : parseBjobsOutput output = [] := by
    unfold parseBjobsOutput
    rw [List.filterMap_eq_nil_iff]
    intro line hline
    unfold lineInfo
    rw [hnone line hline]
    rfl
  unfold getJobInfosSub
  rw [exceptMap_ok, this]

/-- Witness for C7 at the "job not found" message. -/
theorem claim_C7_witness :
    (∀ line ∈ splitlinesKeep "Job <bar> is not found\n".data, matchLine line = none) ∧
    getJobInfosSub (.ok "Job <bar> is not found\n") = .ok [] := by
  refine ⟨by decide, ?_⟩
  exact claim_C7.2.2 "Job <bar> is not found\n" (by decide)

/-- C8: empty output and header-only output parse to no records (every
non-matching line is skipped rather than raising), and the name query
returns the empty list on such outputs. -/
theorem claim_C8 :
    parseBjobsOutput "" = [] ∧
    parseBjobsOutput "JOBID   USER    STAT  QUEUE      FROM_HOST   EXEC_HOST   JOB_NAME   SUBMIT_TIME\n" = [] ∧
    (∀ output : String,
      (∀ line ∈ splitlinesKeep output.data, matchLine line = none) →
      parseBjobsOutput output = []) ∧
    (∀ (oracle : Nat → Except PyErr String) (name : String) (retry : Bool) (delay : ℚ),
      (∀ k, oracle k =
        .ok "JOBID   USER    STAT  QUEUE      FROM_HOST   EXEC_HOST   JOB_NAME   SUBMIT_TIME\n") →
      (getJobNameInfos oracle name retry delay).1 = .ok []) := by
  have hhdr : parseBjobsOutput "JOBID   USER    STAT  QUEUE      FROM_HOST   EXEC_HOST   JOB_NAME   SUBMIT_TIME\n" = [] := by
    decide
  refine ⟨by decide, hhdr, ?_, ?_⟩
  · intro output hnone
    unfold parseBjobsOutput
    rw [List.filterMap_eq_nil_iff]
    intro line hline
    unfold lineInfo
    rw [hnone line hline]
    rfl
  · intro oracle name retry delay hk
    have hsub : ∀ k, getJobInfosSub (oracle k) = .ok [] := by
      intro k
      rw [hk k]
      unfold getJobInfosSub
      rw [exceptMap_ok, hhdr]
    unfold getJobNameInfos queryWithRetry
    rw [hsub 0, hsub 1]
    cases retry <;> rfl

/-- Witness for C8. -/
theorem claim_C8_witness :
    (getJobNameInfos
      (fun _ => .ok "JOBID   USER    STAT  QUEUE      FROM_HOST   EXEC_HOST   JOB_NAME   SUBMIT_TIME\n")
      "foo" true 1).1 = .ok [] := by
  exact claim_C8.2.2.2
    (fun _ => .ok "JOBID   USER    STAT  QUEUE      FROM_HOST   EXEC_HOST   JOB_NAME   SUBMIT_TIME\n")
    "foo" true 1 (fun k => rfl)

/-- C9: the transaction helper commits exactly once and never rolls back
when the body completes normally; when the body raises, or the start
statement raises, it rolls back exactly once, never commits, and the
original exception propagates. -/
theorem claim_C9 (start : Bool) (startSQL : String)
    (startRes bodyRes : Except PyErr Unit) :
    ((start = true → startRes = .ok ()) → bodyRes = .ok () →
      (doTransaction start startSQL startRes bodyRes).1.count .commit = 1 ∧
      (doTransaction start startSQL startRes bodyRes).1.count .rollback = 0 ∧
      (doTransaction start startSQL startRes bodyRes).2 = .ok ()) ∧
    (∀ e, bodyRes = .error e → (start = true → startRes = .ok ()) →
      (doTransaction start startSQL startRes bodyRes).1.count .rollback = 1 ∧
      (doTransaction start startSQL startRes bodyRes).1.count .commit = 0 ∧
      (doTransaction start startSQL startRes bodyRes).2 = .error e) ∧
    (∀ e, start = true → startRes = .error e →
      (doTransaction start startSQL startRes bodyRes).1.count .rollback = 1 ∧
      (doTransaction start startSQL startRes bodyRes).1.count .commit = 0 ∧
      (doTransaction start startSQL startRes bodyRes).2 = .error e) := by
  refine ⟨?_, ?_, ?_⟩
  · intro hstart hbody
    subst hbody
    cases start with
    | false => simp [doTransaction, List.count_cons]
    | true =>
        rw [hstart rfl]
        simp [doTransaction, List.count_cons]
  · intro e hbody hstart
    subst hbody
    cases start with
    | false => simp [doTransaction, List.count_cons]
    | true =>
        rw [hstart rfl]
        simp [doTransaction, List.count_cons]
  · intro e hstart hres
    subst hstart
    rw [hres]  
    simp [doTransaction, List.count_cons]

/-- Witness for C9 at a concrete successful transaction. -/
theorem claim_C9_witness :
    (doTransaction true "START TRANSACTION" (.ok ()) (.ok ())).1.count .commit = 1 ∧
    (doTransaction true "START TRANSACTION" (.ok ()) (.ok ())).1.count .rollback = 0 ∧
    (doTransaction true "START TRANSACTION" (.ok ()) (.ok ())).2 = .ok () := by
  exact (claim_C9 true "START TRANSACTION" (.ok ()) (.ok ())).1 (fun _ => rfl) rfl

/-- C10: every record produced by a status query has exactly the three keys
jobid, status and job_name; the job id and status are always nonempty
whitespace-free strings; the job name can be empty and can contain embedded
whitespace. -/
theorem claim_C10 :
    (∀ (output : String) (info : Dict), info ∈ parseBjobsOutput output →
      ∃ jid st nm : String,
        info = [(JOBID, jid), (STATUS, st), (JOB_NAME, nm)] ∧
        jid ≠ "" ∧ jid.data.all nonWS = true ∧
        st ≠ "" ∧ st.data.all nonWS = true) ∧
    (∃ output : String, ∃ info ∈ parseBjobsOutput output,
      dictGet info JOB_NAME = some "") ∧
    (∃ output : String, ∃ info ∈ parseBjobsOutput output,
      dictGet info JOB_NAME = some "foo bar") := by
  refine ⟨?_, ?_, ?_⟩
  · intro output info h
    exact parse_record_shape h
  · refine ⟨"1 u RUN q h e  Mar 3 10:36\n",
      [(JOBID, "1"), (STATUS, "RUN"), (JOB_NAME, "")], ?_, ?_⟩
    · decide
    · decide
  · refine ⟨"461830  td23    RUN   cbi_unlimited host1 host2 foo bar        Mar  3 10:36\n",
      [(JOBID, "461830"), (STATUS, "RUN"), (JOB_NAME, "foo bar")], ?_, ?_⟩
    · decide
    · decide

/-- Witness for C10 at a concrete parsed record. -/
theorem claim_C10_witness :
    [(JOBID, "1"), (STATUS, "RUN"), (JOB_NAME, "")] ∈
      parseBjobsOutput "1 u RUN q h e  Mar 3 10:36\n" ∧
    ∃ jid st nm : String,
      ([(JOBID, "1"), (STATUS, "RUN"), (JOB_NAME, "")] : Dict) =
        [(JOBID, jid), (STATUS, st), (JOB_NAME, nm)] ∧
      jid ≠ "" ∧ jid.data.all nonWS = true ∧
      st ≠ "" ∧ st.data.all nonWS = true := by
  refine ⟨by decide, ?_⟩
  exact claim_C10.1 "1 u RUN q h e  Mar 3 10:36\n"
    [(JOBID, "1"), (STATUS, "RUN"), (JOB_NAME, "")] (by decide)
